import Mathlib

/-!
Verification of the A-Team CLI core algorithms against their specification.

This file gives a shallow embedding in Lean 4 of the pure algorithmic parts
of the repository and proves the specification claims about them:

  * `ateam/utils/token_counter.py`  — token estimation
  * `ateam/core/context.py`         — context-window trimming
  * `ateam/core/router.py`          — @mention parsing and agent selection
  * `ateam/tools/manager.py`        — tool-call parsing
  * `ateam/security/rate_limiter.py`— token-bucket rate limiting and backoff
  * `ateam/security/trust.py`       — temporary trust grants

Machine reals (Python floats) are modelled as rationals `ℚ`; clock readings
(`time.time()`) are passed explicitly as a `now : ℚ` argument; Python dicts
are modelled as association lists with first-match lookup.
-/

namespace ATeam

/-- A chat message, as the `{"role": ..., "content": ...}` dicts used by
`ContextManager.get_trimmed_context`. -/
structure Message where
  role : String
  content : String
deriving DecidableEq, Repr

/-- `TokenCounter.estimate_tokens`: 0 for the empty string (Python falsiness of
`""`), otherwise `max 1 (len(text) // 4)` (`int(len/4.0)` truncates, and the
length is nonnegative, so it is floor division). -/
def estimate_tokens (s : String) : ℕ :=
  if s.length = 0 then 0 else max 1 (s.length / 4)

/-- Per-message cost used throughout `context.py`: content estimate plus the
4-token framing overhead. -/
def msgTokens (m : Message) : ℕ :=
  estimate_tokens m.content + 4

/-- The inner `count_tokens` helper of `ContextManager.get_trimmed_context`:
sum of `estimate_tokens(content) + 4` over the messages. -/
def count_tokens (msgs : List Message) : ℕ :=
  (msgs.map msgTokens).sum

/-- `TokenCounter.estimate_message_tokens`: per-message costs plus a trailing
3-token response-framing buffer. -/
def estimate_message_tokens (msgs : List Message) : ℕ :=
  count_tokens msgs + 3

/-- Python truthiness of the optional `system_prompt` argument: `None` and the
empty string are falsy. -/
def promptTruthy : Option String → Bool
  | none => false
  | some s => !s.isEmpty

/-- The `full_context` list built at the top of `get_trimmed_context`: a
synthetic system message when a (truthy) system prompt is given, followed by
the input messages, dropping messages of role `"system"` only when a system
prompt was given. -/
def fullContext (messages : List Message) (system_prompt : Option String) : List Message :=
  (if promptTruthy system_prompt then
    [{ role := "system", content := system_prompt.getD "" }]
  else []) ++
  messages.filter (fun m => !(m.role == "system" && promptTruthy system_prompt))

/-- The `fixed_indices` list of `get_trimmed_context`: index 0 when the head of
`full_context` has role `"system"`, then the indices produced by
`range(len(fixed_indices), len(fixed_indices) + preserve_first_n)` (the bound
is evaluated before the loop appends), each kept only if in range. -/
def fixedIndices (fc : List Message) (preserve_first_n : ℕ) : List ℕ :=
  let base : List ℕ :=
    match fc with
    | [] => []
    | m :: _ => if m.role = "system" then [0] else []
  base ++ (List.range' base.length preserve_first_n).filter (fun i => i < fc.length)

/-- The `fixed_msgs` (pinned) list: `[full_context[i] for i in fixed_indices]`. -/
def pinnedMsgs (messages : List Message) (system_prompt : Option String)
    (preserve_first_n : ℕ) : List Message :=
  let fc := fullContext messages system_prompt
  (fixedIndices fc preserve_first_n).filterMap (fun i => fc[i]?)

/-- The backwards selection loop of `get_trimmed_context`: iterate `i` from
`len(full_context) - 1` down to `0`, skipping fixed indices, prepending each
message that still fits the budget and stopping at the first one that does
not.  The first argument of the recursion is the number of indices left to
visit, so `trimLoop fc fx b i cur` visits indices `i-1, …, 0` with `cur`
tokens already taken from the budget `b`. -/
def trimLoop (fc : List Message) (fixedIdx : List ℕ) (budget : ℕ) : ℕ → ℕ → List Message
  | 0, _ => []
  | i + 1, cur =>
    if i ∈ fixedIdx then
      trimLoop fc fixedIdx budget i cur
    else
      match fc[i]? with
      | none => trimLoop fc fixedIdx budget i cur
      | some m =>
        if cur + msgTokens m ≤ budget then
          trimLoop fc fixedIdx budget i (cur + msgTokens m) ++ [m]
        else
          []

/-- `ContextManager.get_trimmed_context`.  `max_tokens` and `preserve_first_n`
are the constructor parameters used by the method (`preserve_system` is never
read by it).  The `baseline` of the source is the literal 3. -/
def get_trimmed_context (max_tokens preserve_first_n : ℕ)
    (messages : List Message) (system_prompt : Option String) : List Message :=
  let fc := fullContext messages system_prompt
  if fc = [] then []
  else
    let fixedIdx := fixedIndices fc preserve_first_n
    let fixed_msgs := fixedIdx.filterMap (fun i => fc[i]?)
    let fixed_tokens := count_tokens fixed_msgs
    if max_tokens < 3 + fixed_tokens then
      fixed_msgs.take 1
    else
      fixed_msgs ++ trimLoop fc fixedIdx (max_tokens - 3 - fixed_tokens) fc.length 0

/-- Unfolding equation for `get_trimmed_context` in terms of `pinnedMsgs`. -/
lemma get_trimmed_context_eq (max_tokens preserve_first_n : ℕ)
    (messages : List Message) (system_prompt : Option String) :
    get_trimmed_context max_tokens preserve_first_n messages system_prompt =
      if fullContext messages system_prompt = [] then []
      else if max_tokens < 3 + count_tokens (pinnedMsgs messages system_prompt preserve_first_n) then
        (pinnedMsgs messages system_prompt preserve_first_n).take 1
      else
        pinnedMsgs messages system_prompt preserve_first_n ++
          trimLoop (fullContext messages system_prompt)
            (fixedIndices (fullContext messages system_prompt) preserve_first_n)
            (max_tokens - 3 - count_tokens (pinnedMsgs messages system_prompt preserve_first_n))
            (fullContext messages system_prompt).length 0 := rfl

lemma pinnedMsgs_of_fullContext_nil (messages : List Message)
    (system_prompt : Option String) (n : ℕ)
    (h : fullContext messages system_prompt = []) :
    pinnedMsgs messages system_prompt n = [] := by
  unfold pinnedMsgs fixedIndices
  simp [h]

/-- The selection loop never spends more than its budget: starting from `cur`
already spent, the tokens of the selected candidates stay within `budget`. -/
lemma trimLoop_within_budget (fc : List Message) (fixedIdx : List ℕ) (budget : ℕ) :
    ∀ i cur, cur ≤ budget →
      cur + count_tokens (trimLoop fc fixedIdx budget i cur) ≤ budget := by
  intro i
  induction i with
  | zero =>
    intro cur h
    simpa [trimLoop, count_tokens] using h
  | succ i ih =>
    intro cur h
    unfold trimLoop
    split
    · exact ih cur h
    · split
      · exact ih cur h
      · rename_i m _
        split
        · rename_i hfit
          have hrec := ih (cur + msgTokens m) hfit
          simp only [count_tokens, List.map_append, List.sum_append, List.map_cons,
            List.map_nil, List.sum_cons, List.sum_nil] at hrec ⊢
          omega
        · simpa [count_tokens] using h

/-- C1: whenever the pinned set (the synthetic system message when a system
prompt is given, plus the next `preserve_first_n` messages) fits the budget —
baseline 3 plus the sum of `estimate_tokens(content) + 4` over pinned messages
is at most `max_tokens` — the output of `ContextManager.get_trimmed_context`
has `TokenCounter.estimate_message_tokens` total at most `max_tokens`. -/
theorem trimmed_context_within_budget (max_tokens preserve_first_n : ℕ)
    (messages : List Message) (system_prompt : Option String)
    (h : 3 + count_tokens (pinnedMsgs messages system_prompt preserve_first_n) ≤ max_tokens) :
    estimate_message_tokens
      (get_trimmed_context max_tokens preserve_first_n messages system_prompt) ≤ max_tokens := by
  rw [get_trimmed_context_eq]
  by_cases h0 : fullContext messages system_prompt = []
  · rw [if_pos h0]
    rw [pinnedMsgs_of_fullContext_nil messages system_prompt preserve_first_n h0] at h
    simp only [count_tokens, List.map_nil, List.sum_nil] at h
    simpa [estimate_message_tokens, count_tokens] using h
  · rw [if_neg h0, if_neg (by omega)]
    have hloop := trimLoop_within_budget (fullContext messages system_prompt)
      (fixedIndices (fullContext messages system_prompt) preserve_first_n)
      (max_tokens - 3 - count_tokens (pinnedMsgs messages system_prompt preserve_first_n))
      (fullContext messages system_prompt).length 0 (Nat.zero_le _)
    simp only [estimate_message_tokens, count_tokens, List.map_append, List.sum_append] at hloop ⊢
    simp only [count_tokens] at h
    omega

/-- Witness for C1 at a concrete input. -/
theorem trimmed_context_within_budget_witness :
    3 + count_tokens (pinnedMsgs [⟨"user", "Hello world"⟩] (some "sys prompt") 0) ≤ 100 ∧
    estimate_message_tokens
      (get_trimmed_context 100 0 [⟨"user", "Hello world"⟩] (some "sys prompt")) ≤ 100 :=
  ⟨by decide,
   trimmed_context_within_budget 100 0 [⟨"user", "Hello world"⟩] (some "sys prompt") (by decide)⟩

/-- C5: when the pinned-message token cost plus the baseline 3 exceeds
`max_tokens`, `get_trimmed_context` returns `fixed_msgs[:1]` — the first
pinned message if one exists, the empty sequence otherwise — so the output
length is at most 1. -/
theorem trimmed_context_over_budget (max_tokens preserve_first_n : ℕ)
    (messages : List Message) (system_prompt : Option String)
    (h : max_tokens < 3 + count_tokens (pinnedMsgs messages system_prompt preserve_first_n)) :
    get_trimmed_context max_tokens preserve_first_n messages system_prompt =
      (pinnedMsgs messages system_prompt preserve_first_n).take 1 ∧
    (get_trimmed_context max_tokens preserve_first_n messages system_prompt).length ≤ 1 := by
  rw [get_trimmed_context_eq]
  by_cases h0 : fullContext messages system_prompt = []
  · rw [if_pos h0, pinnedMsgs_of_fullContext_nil messages system_prompt preserve_first_n h0]
    exact ⟨rfl, by simp⟩
  · rw [if_neg h0, if_pos h]
    refine ⟨rfl, ?_⟩
    simp

/-- Witness for C5 at a concrete input: with `max_tokens = 5`, a system prompt
and one long message, only the system message is returned. -/
theorem trimmed_context_over_budget_witness :
    5 < 3 + count_tokens (pinnedMsgs [⟨"user", "a very long user message indeed"⟩]
      (some "sys prompt") 0) ∧
    get_trimmed_context 5 0 [⟨"user", "a very long user message indeed"⟩] (some "sys prompt") =
      (pinnedMsgs [⟨"user", "a very long user message indeed"⟩] (some "sys prompt") 0).take 1 :=
  ⟨by decide,
   (trimmed_context_over_budget 5 0 [⟨"user", "a very long user message indeed"⟩]
     (some "sys prompt") (by decide)).1⟩

/-! ## `ateam/security/rate_limiter.py` -/

/-- `TokenBucket` of `rate_limiter.py`.  Floats (`tokens`, `refill_rate`,
timestamps) are modelled as `ℚ`; the integer `capacity` is also carried in `ℚ`
(the source mixes it freely into float arithmetic). -/
structure TokenBucket where
  capacity : ℚ
  refill_rate : ℚ
  tokens : ℚ
  last_refill : ℚ
deriving DecidableEq, Repr

namespace TokenBucket

/-- `TokenBucket.__post_init__`: a fresh bucket is full, with `last_refill`
set to the current clock reading. -/
def init (capacity : ℚ) (refill_rate : ℚ) (now : ℚ) : TokenBucket :=
  { capacity := capacity, refill_rate := refill_rate, tokens := capacity, last_refill := now }

/-- `TokenBucket._refill`: add `elapsed * refill_rate` tokens, capped at
`capacity`; the clock reading `time.time()` is the explicit `now` argument. -/
def refill (b : TokenBucket) (now : ℚ) : TokenBucket :=
  let elapsed := now - b.last_refill
  let tokens_to_add := elapsed * b.refill_rate
  { b with tokens := min b.capacity (b.tokens + tokens_to_add), last_refill := now }

/-- `TokenBucket.consume`: refill, then take `k` tokens if available,
returning whether the consumption happened together with the new state
(the source mutates `self` in place; `b.refill now` is the state after the
initial `self._refill()` call). -/
def consume (b : TokenBucket) (now : ℚ) (k : ℚ) : Bool × TokenBucket :=
  if k ≤ (b.refill now).tokens then
    (true, { b.refill now with tokens := (b.refill now).tokens - k })
  else (false, b.refill now)

/-- `TokenBucket.get_wait_time`: refill, then report 0 if `k` tokens are
available and `(k - tokens) / refill_rate` otherwise; the (refilled) state is
returned alongside. -/
def get_wait_time (b : TokenBucket) (now : ℚ) (k : ℚ) : ℚ × TokenBucket :=
  if k ≤ (b.refill now).tokens then (0, b.refill now)
  else ((k - (b.refill now).tokens) / (b.refill now).refill_rate, b.refill now)

@[simp] lemma refill_tokens (b : TokenBucket) (now : ℚ) :
    (b.refill now).tokens = min b.capacity (b.tokens + (now - b.last_refill) * b.refill_rate) :=
  rfl

@[simp] lemma refill_capacity (b : TokenBucket) (now : ℚ) :
    (b.refill now).capacity = b.capacity := rfl

@[simp] lemma refill_refill_rate (b : TokenBucket) (now : ℚ) :
    (b.refill now).refill_rate = b.refill_rate := rfl

@[simp] lemma refill_last_refill (b : TokenBucket) (now : ℚ) :
    (b.refill now).last_refill = now := rfl

end TokenBucket

/-- C2: whenever `consume(k)` succeeds, the resulting token count is exactly
the post-refill count minus `k` and is nonnegative; and after any `_refill`
the token count never exceeds `capacity`. -/
theorem token_bucket_consume_invariants (b : TokenBucket) (now k : ℚ) :
    ((b.consume now k).1 = true →
      (b.consume now k).2.tokens = (b.refill now).tokens - k ∧
      0 ≤ (b.consume now k).2.tokens) ∧
    (b.refill now).tokens ≤ b.capacity := by
  constructor
  · intro hsucc
    unfold TokenBucket.consume at hsucc ⊢
    by_cases hle : k ≤ (b.refill now).tokens
    · rw [if_pos hle]
      exact ⟨rfl, by simpa [sub_nonneg] using hle⟩
    · rw [if_neg hle] at hsucc
      simp at hsucc
  · simp only [TokenBucket.refill_tokens]
    exact min_le_left _ _

/-- Witness for C2: a full bucket of capacity 10 consumes 1 token at once. -/
theorem token_bucket_consume_invariants_witness :
    ((TokenBucket.init 10 1 0).consume 0 1).1 = true ∧
    ((TokenBucket.init 10 1 0).consume 0 1).2.tokens =
      ((TokenBucket.init 10 1 0).refill 0).tokens - 1 ∧
    0 ≤ ((TokenBucket.init 10 1 0).consume 0 1).2.tokens :=
  have h : ((TokenBucket.init 10 1 0).consume 0 1).1 = true := by
    norm_num [TokenBucket.consume, TokenBucket.init, min_def]
  ⟨h, (token_bucket_consume_invariants (TokenBucket.init 10 1 0) 0 1).1 h⟩

/-- C10: when the requested cost `k` strictly exceeds `capacity`, `consume`
fails at every time (refilled tokens never exceed `capacity`), while
`get_wait_time` reports a finite strictly positive duration (for the positive
refill rates the limiter constructs); consuming again at any later time —
in particular after waiting the reported duration — still fails. -/
theorem token_bucket_oversized_request (b : TokenBucket) (now k : ℚ)
    (hk : b.capacity < k) (hrate : 0 < b.refill_rate) :
    (b.consume now k).1 = false ∧
    0 < (b.get_wait_time now k).1 ∧
    (∀ later : ℚ, (((b.get_wait_time now k).2).consume later k).1 = false) := by
  have hcap : ∀ t : ℚ, (b.refill t).tokens ≤ b.capacity := by
    intro t
    rw [TokenBucket.refill_tokens]
    exact min_le_left _ _
  have hfail : (b.consume now k).1 = false := by
    unfold TokenBucket.consume
    rw [if_neg (by have := hcap now; push_neg; linarith)]
  refine ⟨hfail, ?_, ?_⟩
  · unfold TokenBucket.get_wait_time
    rw [if_neg (by have := hcap now; push_neg; linarith)]
    have hnum : 0 < k - (b.refill now).tokens := by have := hcap now; linarith
    exact div_pos hnum (by rw [TokenBucket.refill_refill_rate]; exact hrate)
  · intro later
    have hstate : (b.get_wait_time now k).2 = b.refill now := by
      unfold TokenBucket.get_wait_time
      split <;> rfl
    rw [hstate]
    have hcap2 : ((b.refill now).refill later).tokens ≤ b.capacity := by
      rw [TokenBucket.refill_tokens]
      exact le_trans (min_le_left _ _) (by rw [TokenBucket.refill_capacity])
    unfold TokenBucket.consume
    rw [if_neg (by push_neg; linarith)]

/-- Witness for C10: a bucket of capacity 10 can never serve a request of
cost 11. -/
theorem token_bucket_oversized_request_witness :
    (TokenBucket.init 10 1 0).capacity < 11 ∧ (0:ℚ) < (TokenBucket.init 10 1 0).refill_rate ∧
    ((TokenBucket.init 10 1 0).consume 5 11).1 = false ∧
    0 < ((TokenBucket.init 10 1 0).get_wait_time 5 11).1 :=
  have h := token_bucket_oversized_request (TokenBucket.init 10 1 0) 5 11
    (by norm_num [TokenBucket.init]) (by norm_num [TokenBucket.init])
  ⟨by norm_num [TokenBucket.init], by norm_num [TokenBucket.init], h.1, h.2.1⟩

/-- First-match lookup in an association list, modelling `dict.get`. -/
def alistGet {α : Type} (m : List (String × α)) (key : String) : Option α :=
  (m.find? (fun p => p.1 == key)).map (fun p => p.2)

/-- In-place update of an association list entry, modelling assignment to an
existing dict key (appends when the key is absent). -/
def alistSet {α : Type} (m : List (String × α)) (key : String) (v : α) : List (String × α) :=
  if (m.find? (fun p => p.1 == key)).isSome then
    m.map (fun p => if p.1 == key then (key, v) else p)
  else m ++ [(key, v)]

/-- `RateLimiter` of `rate_limiter.py`: per-provider token buckets, retry
counts and the retry/backoff configuration. -/
structure RateLimiter where
  buckets : List (String × TokenBucket)
  retry_counts : List (String × ℕ)
  enable_auto_retry : Bool
  max_retries : ℕ
  backoff_multiplier : ℚ
deriving DecidableEq, Repr

namespace RateLimiter

/-- `RateLimiter.check_limit`: unknown providers are allowed by default
(`provider not in self.buckets`); otherwise consume from the provider's
bucket. -/
def check_limit (rl : RateLimiter) (now : ℚ) (provider : String) (k : ℚ) :
    Bool × RateLimiter :=
  match alistGet rl.buckets provider with
  | none => (true, rl)
  | some b =>
    let r := b.consume now k
    (r.1, { rl with buckets := alistSet rl.buckets provider r.2 })

/-- `RateLimiter.get_wait_time`: 0.0 for unknown providers, otherwise the
bucket's wait time. -/
def get_wait_time (rl : RateLimiter) (now : ℚ) (provider : String) (k : ℚ) :
    ℚ × RateLimiter :=
  match alistGet rl.buckets provider with
  | none => (0, rl)
  | some b =>
    let r := b.get_wait_time now k
    (r.1, { rl with buckets := alistSet rl.buckets provider r.2 })

/-- `RateLimiter.get_available_tokens`: the sentinel 999999 ("unlimited") for
unknown providers, otherwise `int(tokens)` of the refilled bucket; the Python
`int()` truncates toward zero (`⌈·⌉` below zero, `⌊·⌋` otherwise). -/
def get_available_tokens (rl : RateLimiter) (now : ℚ) (provider : String) : ℤ :=
  match alistGet rl.buckets provider with
  | none => 999999
  | some b =>
    let t := (b.refill now).tokens
    if t < 0 then ⌈t⌉ else ⌊t⌋

/-- `RateLimiter.get_retry_count`: `self.retry_counts.get(provider, 0)`. -/
def get_retry_count (rl : RateLimiter) (provider : String) : ℕ :=
  (alistGet rl.retry_counts provider).getD 0

/-- `RateLimiter.get_backoff_time`:
`base_delay * (backoff_multiplier ** retry_count)` with `base_delay = 1.0`. -/
def get_backoff_time (rl : RateLimiter) (provider : String) : ℚ :=
  let base_delay : ℚ := 1
  base_delay * rl.backoff_multiplier ^ rl.get_retry_count provider

end RateLimiter

/-- C7: the retry backoff is `base_delay * multiplier ^ retry_count` with the
base delay fixed at 1 time unit; with the default multiplier 2 the backoff
after 0, 1 and 2 prior retries is 1, 2 and 4 time units. -/
theorem rate_limiter_backoff (rl : RateLimiter) (provider : String) :
    rl.get_backoff_time provider =
      1 * rl.backoff_multiplier ^ rl.get_retry_count provider ∧
    (rl.backoff_multiplier = 2 →
      (rl.get_retry_count provider = 0 → rl.get_backoff_time provider = 1) ∧
      (rl.get_retry_count provider = 1 → rl.get_backoff_time provider = 2) ∧
      (rl.get_retry_count provider = 2 → rl.get_backoff_time provider = 4)) := by
  refine ⟨rfl, fun hm => ⟨fun h0 => ?_, fun h1 => ?_, fun h2 => ?_⟩⟩
  · simp [RateLimiter.get_backoff_time, hm, h0]
  · simp [RateLimiter.get_backoff_time, hm, h1]
  · simp [RateLimiter.get_backoff_time, hm, h2]
    norm_num

/-- A concrete limiter, with the default `"gemini"` bucket of
`RateLimiter.__init__` (100 requests per 60 s window), the default retry
configuration, and one recorded retry for `"gemini"`. -/
def sampleLimiter : RateLimiter :=
  { buckets := [("gemini", TokenBucket.init 100 (100/60) 0)],
    retry_counts := [("gemini", 1)],
    enable_auto_retry := true,
    max_retries := 3,
    backoff_multiplier := 2 }

/-- Witness for C7 on `sampleLimiter`: one prior retry gives a 2-unit
backoff. -/
theorem rate_limiter_backoff_witness :
    sampleLimiter.backoff_multiplier = 2 ∧
    sampleLimiter.get_retry_count "gemini" = 1 ∧
    sampleLimiter.get_backoff_time "gemini" = 2 :=
  ⟨rfl, by decide,
   ((rate_limiter_backoff sampleLimiter "gemini").2 rfl).2.1 (by decide)⟩

/-- C8: for a provider with no configured bucket, `check_limit` returns true
for every cost (fail-open) and the wait-time query reports the sentinel
0.0 (never wait); `get_available_tokens` reports the unlimited sentinel
999999. -/
theorem rate_limiter_unknown_provider (rl : RateLimiter) (now : ℚ)
    (provider : String) (k : ℚ) (h : alistGet rl.buckets provider = none) :
    (rl.check_limit now provider k).1 = true ∧
    (rl.get_wait_time now provider k).1 = 0 ∧
    rl.get_available_tokens now provider = 999999 := by
  unfold RateLimiter.check_limit RateLimiter.get_wait_time RateLimiter.get_available_tokens
  rw [h]
  exact ⟨rfl, rfl, rfl⟩

/-- Witness for C8: `sampleLimiter` has only a `"gemini"` bucket and fails
open for `"mystery"`. -/
theorem rate_limiter_unknown_provider_witness :
    alistGet sampleLimiter.buckets "mystery" = none ∧
    (sampleLimiter.check_limit 7 "mystery" 1).1 = true ∧
    (sampleLimiter.get_wait_time 7 "mystery" 1).1 = 0 ∧
    sampleLimiter.get_available_tokens 7 "mystery" = 999999 :=
  have h : alistGet sampleLimiter.buckets "mystery" = none := by
    simp [sampleLimiter, alistGet]
  ⟨h, rate_limiter_unknown_provider sampleLimiter 7 "mystery" 1 h⟩

/-! ## `ateam/security/trust.py` -/

/-- Python `int()` on a rational: truncation toward zero. -/
def pyInt (q : ℚ) : ℤ :=
  if q < 0 then -Rat.floor (-q) else Rat.floor q

/-- The `_trusted_agents` dict of `TrustManager`: agent name ↦ expiration
timestamp. -/
def TrustState := List (String × ℚ)
deriving DecidableEq, Repr

/-- Deletion of a key, modelling `del self._trusted_agents[agent_name]`. -/
def eraseAgent (st : TrustState) (agent : String) : TrustState :=
  List.filter (fun p => p.1 != agent) st

/-- `TrustManager.is_agent_trusted`: look up the expiration; `if not
expiration` is Python falsiness, so both a missing grant and a stored
expiration of exactly 0.0 short-circuit to `False` without the purge; an
expiration that the clock has reached (`time.time() >= expiration`) is purged
and reported `False`; otherwise the agent is trusted.  Returns the answer
and the (possibly purged) state. -/
def is_agent_trusted (st : TrustState) (now : ℚ) (agent : String) : Bool × TrustState :=
  match alistGet st agent with
  | none => (false, st)
  | some expiration =>
    if expiration = 0 then (false, st)
    else if expiration ≤ now then (false, eraseAgent st agent)
    else (true, st)

/-- `TrustManager.get_remaining_time`: 0 for a missing (or falsy 0.0) grant,
otherwise `max(0, int(expiration - time.time()))`. -/
def get_remaining_time (st : TrustState) (now : ℚ) (agent : String) : ℤ :=
  match alistGet st agent with
  | none => 0
  | some expiration =>
    if expiration = 0 then 0
    else max 0 (pyInt (expiration - now))

/-- Counterexample to C3 as stated: a grant stored with expiration exactly
0.0 whose expiry has passed (`now = 50 ≥ 0`) is reported untrusted, but the
stale grant is NOT deleted by the check — Python's `if not expiration` treats
the 0.0 timestamp as falsy and returns before the purge. -/
theorem trust_expired_zero_grant_not_purged :
    (is_agent_trusted [("Coder", (0:ℚ))] 50 "Coder").1 = false ∧
    (50:ℚ) ≥ 0 ∧
    (is_agent_trusted [("Coder", (0:ℚ))] 50 "Coder").2 = [("Coder", (0:ℚ))] ∧
    eraseAgent [("Coder", (0:ℚ))] "Coder" ≠ [("Coder", (0:ℚ))] := by
  refine ⟨by decide, by norm_num, by decide, by decide⟩

/-- C3 (amended): `is_agent_trusted` is false when no grant exists or the
grant has expired (`now ≥ expires_at`), and when the stored expiry is nonzero
the expired grant is purged as a side effect; an expired grant is never
reported as active; `get_remaining_time` is `max 0 (int (expires_at - now))`
for a nonzero grant and 0 whenever the agent is untrusted (missing, expired,
or stored with the falsy expiry 0.0). -/
theorem trust_lazy_expiry (st : TrustState) (now : ℚ) (agent : String) :
    (alistGet st agent = none →
      is_agent_trusted st now agent = (false, st) ∧
      get_remaining_time st now agent = 0) ∧
    (∀ e : ℚ, alistGet st agent = some e →
      (e ≠ 0 → e ≤ now →
        is_agent_trusted st now agent = (false, eraseAgent st agent)) ∧
      (e ≤ now → (is_agent_trusted st now agent).1 = false) ∧
      (e ≠ 0 → get_remaining_time st now agent = max 0 (pyInt (e - now))) ∧
      (e ≤ now → get_remaining_time st now agent = 0) ∧
      (e = 0 → get_remaining_time st now agent = 0)) := by
  constructor
  · intro hnone
    unfold is_agent_trusted get_remaining_time
    rw [hnone]
    exact ⟨rfl, rfl⟩
  · intro e he
    unfold is_agent_trusted get_remaining_time
    rw [he]
    dsimp only
    refine ⟨fun hne hexp => ?_, fun hexp => ?_, fun hne => ?_, fun hexp => ?_, fun h0 => ?_⟩
    · rw [if_neg hne, if_pos hexp]
    · by_cases h0 : e = 0
      · rw [if_pos h0]
      · rw [if_neg h0, if_pos hexp]
    · rw [if_neg hne]
    · by_cases h0 : e = 0
      · rw [if_pos h0]
      · rw [if_neg h0]
        have : pyInt (e - now) ≤ 0 := by
          unfold pyInt
          split
          · rename_i hlt
            have h1 : (0:ℚ) ≤ -(e - now) := by linarith
            have hfl : (0:ℤ) ≤ Rat.floor (-(e - now)) :=
              Rat.le_floor.mpr (by exact_mod_cast h1)
            omega
          · rename_i hge
            push_neg at hge
            have hle : e - now ≤ 0 := by linarith
            have hfl : ¬ (1:ℤ) ≤ Rat.floor (e - now) := by
              intro hc
              have := Rat.le_floor.mp hc
              have : (1:ℚ) ≤ e - now := by exact_mod_cast this
              linarith
            omega
        omega
    · rw [if_pos h0]

/-- Witness for C3 (amended) at concrete inputs: a nonzero grant for
`"Coder"` that expired at time 100 is reported untrusted and purged at
time 150, with 0 seconds remaining. -/
theorem trust_lazy_expiry_witness :
    alistGet [("Coder", (100:ℚ))] "Coder" = some 100 ∧
    is_agent_trusted [("Coder", (100:ℚ))] 150 "Coder" =
      (false, eraseAgent [("Coder", (100:ℚ))] "Coder") ∧
    get_remaining_time [("Coder", (100:ℚ))] 150 "Coder" = 0 :=
  have h : alistGet [("Coder", (100:ℚ))] "Coder" = some 100 := by decide
  have hmain := (trust_lazy_expiry [("Coder", (100:ℚ))] 150 "Coder").2 100 h
  ⟨h, hmain.1 (by norm_num) (by norm_num), hmain.2.2.2.1 (by norm_num)⟩

/-! ## `ateam/core/router.py` -/

/-- The character class `[a-zA-Z0-9_]` of `AGENT_TAG_PATTERN`. -/
def isWordChar (c : Char) : Bool :=
  c.isAlpha || c.isDigit || c = '_'

/-- ASCII whitespace, the characters handled by `str.strip()` and the regex
class `\s` (the sources never feed non-ASCII whitespace). -/
def isPyWs (c : Char) : Bool :=
  c = ' ' || c = '\t' || c = '\n' || c = '\r' || c = '\x0b' || c = '\x0c'

/-- Python `str.strip()`: drop leading and trailing whitespace. -/
def pyStrip (l : List Char) : List Char :=
  ((l.dropWhile isPyWs).reverse.dropWhile isPyWs).reverse

/-- `re.findall` for `@([a-zA-Z0-9_]+)`: scan left to right; at each `@`
followed by at least one word character, capture the maximal word run and
resume after it (matches are non-overlapping); otherwise advance one
character. -/
def mentionsAux : List Char → List String
  | [] => []
  | c :: rest =>
    if c = '@' then
      let w := rest.takeWhile isWordChar
      if w.isEmpty then mentionsAux rest
      else String.mk w :: mentionsAux (rest.drop w.length)
    else mentionsAux rest
termination_by l => l.length
decreasing_by
  · simp
  · simp [List.length_drop]
    omega
  · simp

/-- `AgentRouter.parse_mentions`. -/
def parse_mentions (text : String) : List String :=
  mentionsAux text.toList

/-- Python `str.replace(old, "")` for a nonempty pattern `p :: ps`:
remove every non-overlapping occurrence, scanning left to right. -/
def replaceSub (p : Char) (ps : List Char) : List Char → List Char
  | [] => []
  | c :: rest =>
    if (p :: ps).isPrefixOf (c :: rest) then replaceSub p ps (rest.drop ps.length)
    else c :: replaceSub p ps rest
termination_by l => l.length
decreasing_by
  · simp [List.length_drop]
    omega
  · simp

/-- The router's agent configuration: the configured agent names (the keys of
`config.agents`) and `config.default_agent`. -/
structure RouterConfig where
  agents : List String
  default_agent : String

/-- Success of `ConfigManager.get_agent`: an exact key match, or a
case-insensitive match against some configured agent name. -/
def get_agent_ok (agents : List String) (name : String) : Bool :=
  agents.contains name || agents.any (fun a => a.toLower == name.toLower)

/-- The mention loop of `AgentRouter.select_agents`: for each mention in
order, if it resolves to a configured agent, append it to `valid_agents` and
strip the literal `@mention` substring from the running `cleaned` text. -/
def selectLoop (agents : List String) : List String → List String → List Char →
    List String × List Char
  | [], acc, cleaned => (acc, cleaned)
  | m :: ms, acc, cleaned =>
    if get_agent_ok agents m then
      selectLoop agents ms (acc ++ [m]) (replaceSub '@' m.toList cleaned)
    else
      selectLoop agents ms acc cleaned

/-- The duplicate-removal comprehension of `select_agents`
(`[x for x in valid_agents if not (x in seen or seen.add(x))]`). -/
def dedupFirst : List String → List String → List String
  | [], _ => []
  | x :: xs, seen =>
    if x ∈ seen then dedupFirst xs seen
    else x :: dedupFirst xs (x :: seen)

/-- `AgentRouter.select_agents`: parse mentions, keep the ones that resolve,
strip their literal text, trim whitespace, and fall back to the default agent
when no mention resolved. -/
def select_agents (cfg : RouterConfig) (text : String) : List String × String :=
  let mentions := parse_mentions text
  let r := selectLoop cfg.agents mentions [] text.toList
  let cleaned := pyStrip r.2
  if r.1 = [] then ([cfg.default_agent], String.mk cleaned)
  else (dedupFirst r.1 [], String.mk cleaned)

/-- The mention loop keeps exactly the mentions that resolve, in order, and
strips each of their literal `@mention` substrings from the running text. -/
lemma selectLoop_spec (agents : List String) :
    ∀ (ms acc : List String) (cl : List Char),
      selectLoop agents ms acc cl =
        (acc ++ ms.filter (get_agent_ok agents),
         (ms.filter (get_agent_ok agents)).foldl
           (fun c m => replaceSub '@' m.toList c) cl) := by
  intro ms
  induction ms with
  | nil =>
    intro acc cl
    simp [selectLoop]
  | cons m ms ih =>
    intro acc cl
    cases h : get_agent_ok agents m with
    | true => simp [selectLoop, h, ih, List.filter_cons]
    | false => simp [selectLoop, h, ih, List.filter_cons]

/-- C4: `select_agents` returns exactly the mentions that resolve to
configured agents, in order of first appearance with duplicates collapsed,
with every valid mention's literal `@name` substring stripped from the text
and the result whitespace-trimmed; with no valid mention it falls back to the
single default agent and the text is only whitespace-trimmed.  The two quoted
examples are included. -/
theorem select_agents_behavior :
    (∀ (cfg : RouterConfig) (text : String),
      ((parse_mentions text).filter (get_agent_ok cfg.agents) = [] →
        select_agents cfg text = ([cfg.default_agent], String.mk (pyStrip text.toList))) ∧
      ((parse_mentions text).filter (get_agent_ok cfg.agents) ≠ [] →
        select_agents cfg text =
          (dedupFirst ((parse_mentions text).filter (get_agent_ok cfg.agents)) [],
           String.mk (pyStrip (((parse_mentions text).filter (get_agent_ok cfg.agents)).foldl
             (fun c m => replaceSub '@' m.toList c) text.toList))))) ∧
    select_agents ⟨["Architect", "Coder"], "Architect"⟩ "@Architect @Coder plan?" =
      (["Architect", "Coder"], "plan?") ∧
    select_agents ⟨["Architect"], "Architect"⟩ "Hello world" =
      (["Architect"], "Hello world") := by
  refine ⟨fun cfg text => ⟨fun hnil => ?_, fun hne => ?_⟩, ?_, ?_⟩
  · simp only [select_agents]
    rw [selectLoop_spec]
    simp [hnil]
  · simp only [select_agents]
    rw [selectLoop_spec]
    simp [hne]
  · simp only [select_agents, parse_mentions]
    simp +decide [mentionsAux, selectLoop, replaceSub, pyStrip, get_agent_ok, dedupFirst,
      isWordChar, isPyWs, String.toList, List.takeWhile]
  · simp only [select_agents, parse_mentions]
    simp +decide [mentionsAux, selectLoop, replaceSub, pyStrip, get_agent_ok, dedupFirst,
      isWordChar, isPyWs, String.toList, List.takeWhile]

/-- Witness for C4's fallback implication at a concrete input. -/
theorem select_agents_behavior_witness :
    (parse_mentions "Hello world").filter (get_agent_ok ["Architect"]) = [] ∧
    select_agents ⟨["Architect"], "Architect"⟩ "Hello world" =
      (["Architect"], String.mk (pyStrip "Hello world".toList)) :=
  have h : (parse_mentions "Hello world").filter (get_agent_ok ["Architect"]) = [] := by
    simp +decide [parse_mentions, mentionsAux, get_agent_ok, isWordChar, String.toList]
  ⟨h, (select_agents_behavior.1 ⟨["Architect"], "Architect"⟩ "Hello world").1 h⟩

/-! ## `ateam/tools/manager.py` -/

/-- The literal head of `TOOL_PATTERN`. -/
def openTag : List Char := "<tool_call".toList

/-- The literal closing tag of `TOOL_PATTERN`. -/
def closeTag : List Char := "</tool_call>".toList

/-- Index of the first occurrence of `pat`, modelling the lazy
`(.*?)` search of the regex engine for the following literal. -/
def findSub (pat : List Char) : List Char → Option ℕ
  | [] => if pat.isEmpty then some 0 else none
  | c :: rest =>
    if pat.isPrefixOf (c :: rest) then some 0
    else (findSub pat rest).map (fun n => n + 1)

/-- One attempted match of `TOOL_PATTERN`
(`<tool_call\s+([^>]+)>(.*?)</tool_call>` with `re.DOTALL`) anchored at the
start of `s`.  After the literal `<tool_call`, the segment `seg` up to the
first `>` must start with whitespace (`\s+`) and leave at least one character
for the greedy `([^>]+)` (when `seg` is all whitespace, `\s+` backtracks by
one character); the lazy body runs to the first `</tool_call>`.  Returns the
attribute string, the body, and the total number of characters consumed. -/
def toolMatchAt (s : List Char) : Option (List Char × List Char × ℕ) :=
  if openTag.isPrefixOf s then
    let t := s.drop openTag.length
    let seg := t.takeWhile (fun c => c != '>')
    if seg.length < t.length then
      let w := (seg.takeWhile isPyWs).length
      let attrOpt : Option (List Char) :=
        if w = 0 then none
        else if w < seg.length then some (seg.drop w)
        else if 2 ≤ seg.length then some (seg.drop (seg.length - 1))
        else none
      match attrOpt with
      | none => none
      | some attr =>
        let u := t.drop (seg.length + 1)
        match findSub closeTag u with
        | some j =>
          some (attr, u.take j, openTag.length + seg.length + 1 + j + closeTag.length)
        | none => none
    else none
  else none

/-- `re.findall` for `TOOL_PATTERN`: scan left to right, emitting each
non-overlapping match (attribute string, body) and resuming right after it;
on failure advance one character.  A successful match always consumes at
least the opening literal, so recursing on `rest.drop (consumed - 1)` (which
equals `(c :: rest).drop consumed`) is exact. -/
def toolFindall : List Char → List (List Char × List Char)
  | [] => []
  | c :: rest =>
    match toolMatchAt (c :: rest) with
    | some (attr, body, consumed) => (attr, body) :: toolFindall (rest.drop (consumed - 1))
    | none => toolFindall rest
termination_by l => l.length
decreasing_by
  · simp [List.length_drop]
    omega
  · simp

/-- The character class `[a-zA-Z_]` of `ATTR_PATTERN`. -/
def attrKeyChar (c : Char) : Bool :=
  c.isAlpha || c = '_'

/-- One attempted match of `ATTR_PATTERN` (`([a-zA-Z_]+)="([^"]*)"`) anchored
at the start of `s`: a maximal nonempty key run, then `="`, then the value up
to the closing quote.  (A shorter key can never rescue a failed match: the
character after any shorter key is again a key character, never `=`.) -/
def attrMatchAt (s : List Char) : Option (String × String × ℕ) :=
  let key := s.takeWhile attrKeyChar
  if key.isEmpty then none
  else
    match s.drop key.length with
    | '=' :: '"' :: r2 =>
      let v := r2.takeWhile (fun c => c != '"')
      if v.length < r2.length then
        some (String.mk key, String.mk v, key.length + 2 + v.length + 1)
      else none
    | _ => none

/-- `re.findall` for `ATTR_PATTERN`, same scanning regime as `toolFindall`
(a match consumes at least the nonempty key). -/
def attrFindall : List Char → List (String × String)
  | [] => []
  | c :: rest =>
    match attrMatchAt (c :: rest) with
    | some (k, v, consumed) => (k, v) :: attrFindall (rest.drop (consumed - 1))
    | none => attrFindall rest
termination_by l => l.length
decreasing_by
  · simp [List.length_drop]
    omega
  · simp

/-- Python `dict(pairs)`: first insertion fixes the position of a key, later
duplicates overwrite its value in place. -/
def dictOfPairs (ps : List (String × String)) : List (String × String) :=
  ps.foldl (fun d p => alistSet d p.1 p.2) []

/-- The dict left after `attrs.pop(key)`. -/
def dictPop (d : List (String × String)) (key : String) : List (String × String) :=
  d.filter (fun p => p.1 != key)

/-- A parsed tool call, the `{"name": ..., "args": ..., "body": ...}` dict
built by `ToolManager.parse_calls`. -/
structure ToolCall where
  name : String
  args : List (String × String)
  body : String
deriving DecidableEq, Repr

/-- `ToolManager.parse_calls`: for each `TOOL_PATTERN` match in order, build
the attribute dict; skip the match when it has no `name` attribute; otherwise
record the name, the remaining attributes, and the stripped body. -/
def parse_calls (text : String) : List ToolCall :=
  (toolFindall text.toList).foldl
    (fun calls m =>
      let attrs := dictOfPairs (attrFindall m.1)
      match alistGet attrs "name" with
      | none => calls
      | some n =>
        calls ++ [{ name := n, args := dictPop attrs "name", body := String.mk (pyStrip m.2) }])
    []

/-- The append-accumulator loop of `parse_calls` is a `filterMap`. -/
lemma parse_calls_foldl_eq :
    ∀ (l : List (List Char × List Char)) (acc : List ToolCall),
      l.foldl
        (fun calls m =>
          let attrs := dictOfPairs (attrFindall m.1)
          match alistGet attrs "name" with
          | none => calls
          | some n =>
            calls ++ [{ name := n, args := dictPop attrs "name",
                        body := String.mk (pyStrip m.2) }])
        acc =
      acc ++ l.filterMap (fun m =>
        match alistGet (dictOfPairs (attrFindall m.1)) "name" with
        | none => none
        | some n =>
          some { name := n, args := dictPop (dictOfPairs (attrFindall m.1)) "name",
                 body := String.mk (pyStrip m.2) }) := by
  intro l
  induction l with
  | nil => intro acc; simp
  | cons m ms ih =>
    intro acc
    cases h : alistGet (dictOfPairs (attrFindall m.1)) "name" with
    | none => simp [List.foldl_cons, List.filterMap_cons, h, ih]
    | some n => simp [List.foldl_cons, List.filterMap_cons, h, ih]

/-- `parse_calls` as a `filterMap` over the regex matches. -/
lemma parse_calls_eq_filterMap (text : String) :
    parse_calls text =
      (toolFindall text.toList).filterMap (fun m =>
        match alistGet (dictOfPairs (attrFindall m.1)) "name" with
        | none => none
        | some n =>
          some { name := n, args := dictPop (dictOfPairs (attrFindall m.1)) "name",
                 body := String.mk (pyStrip m.2) }) := by
  have h := parse_calls_foldl_eq (toolFindall text.toList) []
  simpa [parse_calls] using h

/-- C6: `parse_calls` extracts every well-formed `<tool_call ...>` occurrence
in order as name/args/body, dropping (not raising on) matches whose attribute
dict lacks a `name` key; the quoted shell example parses to exactly one call
with empty args, and a name-less tag yields no call.  (The embedding is a
total function: no input raises.) -/
theorem parse_calls_spec :
    (∀ text : String,
      parse_calls text =
        (toolFindall text.toList).filterMap (fun m =>
          match alistGet (dictOfPairs (attrFindall m.1)) "name" with
          | none => none
          | some n =>
            some { name := n, args := dictPop (dictOfPairs (attrFindall m.1)) "name",
                   body := String.mk (pyStrip m.2) })) ∧
    parse_calls "<tool_call name=\"shell\">ls -la</tool_call>" =
      [{ name := "shell", args := [], body := "ls -la" }] ∧
    parse_calls "<tool_call foo=\"bar\">x</tool_call>" = [] := by
  refine ⟨parse_calls_eq_filterMap, ?_, ?_⟩
  · simp +decide [parse_calls, toolFindall, toolMatchAt, findSub, attrFindall, attrMatchAt,
      attrKeyChar, dictOfPairs, dictPop, alistGet, alistSet, pyStrip, isPyWs,
      openTag, closeTag, String.toList, List.takeWhile]
  · simp +decide [parse_calls, toolFindall, toolMatchAt, findSub, attrFindall, attrMatchAt,
      attrKeyChar, dictOfPairs, dictPop, alistGet, alistSet, pyStrip, isPyWs,
      openTag, closeTag, String.toList, List.takeWhile]

lemma dropWhile_head_false (p : Char → Bool) :
    ∀ (l : List Char) (c : Char) (cs : List Char),
      l.dropWhile p = c :: cs → p c = false := by
  intro l
  induction l with
  | nil =>
    intro c cs h
    simp [List.dropWhile] at h
  | cons x xs ih =>
    intro c cs h
    rw [List.dropWhile_cons] at h
    split at h
    · exact ih c cs h
    · rename_i hpx
      cases h
      simpa using hpx

lemma dropWhile_idem (p : Char → Bool) (l : List Char) :
    (l.dropWhile p).dropWhile p = l.dropWhile p := by
  cases h : l.dropWhile p with
  | nil => simp
  | cons c cs =>
    rw [List.dropWhile_cons, dropWhile_head_false p l c cs h]
    simp

lemma dropWhile_suffix_ex (p : Char → Bool) :
    ∀ l : List Char, ∃ t, l = t ++ l.dropWhile p := by
  intro l
  induction l with
  | nil => exact ⟨[], rfl⟩
  | cons c cs ih =>
    by_cases h : p c
    · obtain ⟨t, ht⟩ := ih
      refine ⟨c :: t, ?_⟩
      rw [List.dropWhile_cons, if_pos h]
      simpa using ht
    · refine ⟨[], ?_⟩
      rw [List.dropWhile_cons, if_neg h]
      simp

/-- `pyStrip` output carries no leading whitespace. -/
lemma pyStrip_dropWhile (l : List Char) :
    (pyStrip l).dropWhile isPyWs = pyStrip l := by
  unfold pyStrip
  cases hs : (l.dropWhile isPyWs).reverse.dropWhile isPyWs with
  | nil => simp
  | cons d ds =>
    obtain ⟨t, ht⟩ := dropWhile_suffix_ex isPyWs (l.dropWhile isPyWs).reverse
    rw [hs] at ht
    have hr : l.dropWhile isPyWs = (d :: ds).reverse ++ t.reverse := by
      have := congrArg List.reverse ht
      simpa using this
    cases hrev : (d :: ds).reverse with
    | nil => simp at hrev
    | cons c cs =>
      rw [hrev] at hr
      have hc : isPyWs c = false :=
        dropWhile_head_false isPyWs l c (cs ++ t.reverse) (by simpa using hr)
      rw [List.dropWhile_cons, hc]
      simp

/-- `pyStrip` output carries no trailing whitespace. -/
lemma pyStrip_reverse_dropWhile (l : List Char) :
    (pyStrip l).reverse.dropWhile isPyWs = (pyStrip l).reverse := by
  unfold pyStrip
  rw [List.reverse_reverse]
  exact dropWhile_idem isPyWs _

/-- C9: every body returned by `parse_calls` is the text between the opening
and closing tags with leading and trailing whitespace removed (`.strip()`),
so it never retains leading or trailing whitespace — in particular newlines —
and a whitespace-only body comes back as the empty string, as in the quoted
`write_file` example. -/
theorem parse_calls_body_stripped :
    (∀ (text : String) (c : ToolCall), c ∈ parse_calls text →
      ∃ a b, (a, b) ∈ toolFindall text.toList ∧ c.body = String.mk (pyStrip b)) ∧
    (∀ l : List Char,
      (pyStrip l).dropWhile isPyWs = pyStrip l ∧
      (pyStrip l).reverse.dropWhile isPyWs = (pyStrip l).reverse) ∧
    parse_calls "<tool_call name=\"write_file\" path=\"t.txt\">\n  \n</tool_call>" =
      [{ name := "write_file", args := [("path", "t.txt")], body := "" }] := by
  refine ⟨?_, fun l => ⟨pyStrip_dropWhile l, pyStrip_reverse_dropWhile l⟩, ?_⟩
  · intro text c hc
    rw [parse_calls_eq_filterMap] at hc
    obtain ⟨m, hm, hf⟩ := List.mem_filterMap.mp hc
    refine ⟨m.1, m.2, by simpa using hm, ?_⟩
    cases h : alistGet (dictOfPairs (attrFindall m.1)) "name" with
    | none => rw [h] at hf; simp at hf
    | some n =>
      rw [h] at hf
      simp only [Option.some_inj] at hf
      rw [← hf]
  · simp +decide [parse_calls, toolFindall, toolMatchAt, findSub, attrFindall, attrMatchAt,
      attrKeyChar, dictOfPairs, dictPop, alistGet, alistSet, pyStrip, isPyWs,
      openTag, closeTag, String.toList, List.takeWhile]

/-- Witness for C9's membership implication: the stripped body of the shell
call in a concrete text. -/
theorem parse_calls_body_stripped_witness :
    (ToolCall.mk "shell" [] "ls") ∈ parse_calls "<tool_call name=\"shell\"> ls </tool_call>" ∧
    ∃ a b, (a, b) ∈ toolFindall "<tool_call name=\"shell\"> ls </tool_call>".toList ∧
      (ToolCall.mk "shell" [] "ls").body = String.mk (pyStrip b) :=
  have h : (ToolCall.mk "shell" [] "ls") ∈
      parse_calls "<tool_call name=\"shell\"> ls </tool_call>" := by
    simp +decide [parse_calls, toolFindall, toolMatchAt, findSub, attrFindall, attrMatchAt,
      attrKeyChar, dictOfPairs, dictPop, alistGet, alistSet, pyStrip, isPyWs,
      openTag, closeTag, String.toList, List.takeWhile]
  ⟨h, parse_calls_body_stripped.1 "<tool_call name=\"shell\"> ls </tool_call>"
    (ToolCall.mk "shell" [] "ls") h⟩

end ATeam
